import Mathlib

/-!
Verification of the RemoteCWKeyer configuration code generators.

The repository consists of three Python generators:
* `scripts/gen_config_c.py` — parses the v2 hierarchical schema and emits the
  C configuration store, NVS persistence and the console registry
  (`config_console.c` with `config_find_param`, `config_set_param_str`,
  `config_foreach_matching`, the per-parameter `get_*`/`set_*` accessors and
  `config_bump_generation`).
* `scripts/gen_config.py` — emits the Rust configuration store and console
  registry (`config_console.rs` with its `set_fn` closures).
* `scripts/gen_preset_config.py` — emits the Rust iambic preset container.

This file gives a shallow embedding of (a) the generator pipeline itself
(which dictionary keys each phase reads, in order, and which artifact files it
writes), and (b) the runtime behaviour of the *generated* code, modelled
directly from the emitted C/Rust text.  Machine integers are Nat with explicit
`% 2^w` where the generated code truncates; C strings are Lean strings /
`List Char`; the external NVS driver (an out-of-repo collaborator) is modelled
by its contract: a namespaced typed key-value store with explicit not-found
signalling.
-/

namespace Keyer

/-! ## The generated C console registry (gen_config_c.py → config_console.c) -/

/-- Parameter type tags of the generated C console registry
(`param_type_t` in the emitted config_console.h). -/
inductive CParamType where
  | u8 | u16 | u32 | boolP | enumP | stringP
deriving DecidableEq, Repr

/-- One entry of the generated `CONSOLE_PARAMS` table (`param_descriptor_t`).
The `get_fn`/`set_fn` pointers of the C table always point at the generated
accessor pair for the same parameter, so the binding is determined by `type`
and `full_path` and is not a separate field here.  For enum parameters the
generator emits `min = 0`, `max = len(enum_values)-1`; for strings it emits
`min = 0`, `max = max_length` (so `max` doubles as the string capacity used
by the generated setter's `strncpy`). -/
structure ParamDescriptor where
  name : String
  family : String
  full_path : String
  type : CParamType
  min : Nat
  max : Nat
deriving DecidableEq, Repr

/-- Runtime configuration store of the generated `keyer_config_t`: numeric and
boolean atomic fields (booleans kept as 0/1, mirroring `atomic_bool`) and
string buffers, both indexed by full path, plus the shared `atomic_ushort
generation` counter. -/
structure CState where
  ints : String → Nat
  strs : String → String
  generation : Nat

/-- Generated `config_bump_generation`:
`atomic_fetch_add_explicit(&cfg->generation, 1, memory_order_release)` on a
16-bit `atomic_ushort`, hence the increment wraps modulo 2^16. -/
def config_bump_generation (st : CState) : CState :=
  { st with generation := (st.generation + 1) % 65536 }

/-- Memory ordering annotations appearing in the generated mutator code. -/
inductive MemOrder where
  | relaxed | release
deriving DecidableEq, Repr

/-- One memory access of a generated mutator, in program order:
an `atomic_store_explicit` of a field, a plain `strncpy` into a string
buffer, or the `atomic_fetch_add_explicit` on the generation counter. -/
inductive MemEvent where
  | storeInt (path : String) (val : Nat) (ord : MemOrder)
  | copyStr (path : String) (val : String)
  | fetchAddGen (amount : Nat) (ord : MemOrder)
deriving DecidableEq, Repr

/-- Union member handed to a generated `set_*` function (`param_value_t`).
The generated call sites always pass the member matching the parameter's
type; `asNum`/`asStr` below model the union member reads of the setters. -/
inductive SetVal where
  | num (n : Nat)
  | boolv (b : Bool)
  | strv (s : String)
deriving DecidableEq, Repr

def SetVal.asNum : SetVal → Nat
  | .num n => n
  | .boolv b => if b then 1 else 0
  | .strv _ => 0

def SetVal.asStr : SetVal → String
  | .strv s => s
  | _ => ""

/-- First `n` characters of a string (the result of `strncpy` into an
`n`-capacity buffer followed by forced null termination). -/
def strTake (s : String) (n : Nat) : String := String.mk (s.toList.take n)

/-- Program-order event list of a generated `set_<family>_<name>` body:
first the store of the new field value (an `atomic_store_explicit(...,
memory_order_relaxed)` for numeric/bool/enum fields, a plain
`strncpy`+termination for string fields, truncating to the capacity), then
`config_bump_generation(&g_config)`, i.e. a release-ordered `fetch_add` of 1
on the shared generation counter. -/
def set_fn_events (d : ParamDescriptor) (v : SetVal) : List MemEvent :=
  match d.type with
  | .stringP => [.copyStr d.full_path (strTake v.asStr d.max), .fetchAddGen 1 .release]
  | _ => [.storeInt d.full_path v.asNum .relaxed, .fetchAddGen 1 .release]

def setIntField (st : CState) (p : String) (v : Nat) : CState :=
  { st with ints := fun s => if s = p then v else st.ints s }

def setStrField (st : CState) (p : String) (v : String) : CState :=
  { st with strs := fun s => if s = p then v else st.strs s }

def applyEvent (st : CState) : MemEvent → CState
  | .storeInt p v _ => setIntField st p v
  | .copyStr p v => setStrField st p v
  | .fetchAddGen n _ => { st with generation := (st.generation + n) % 65536 }

def runEvents (st : CState) (es : List MemEvent) : CState := es.foldl applyEvent st

/-- Generated `config_find_param`: one scan over `CONSOLE_PARAMS` in
declaration order; for each descriptor the full path is compared first, then
the bare name, and the first hit is returned. -/
def config_find_param : List ParamDescriptor → String → Option ParamDescriptor
  | [], _ => none
  | p :: rest, q =>
    if p.full_path = q then some p
    else if p.name = q then some p
    else config_find_param rest q

/-! ### strtoul model

The generated `config_set_param_str` converts integer values with
`strtoul(value, NULL, 0)` — note the NULL end pointer, so the conversion
result is the only information available.  This models C `strtoul` with
base 0 (auto-detected base) on the generation target (ESP32, ILP32:
`unsigned long` is 32 bits): optional whitespace, optional sign, `0x`/`0X`
hex or leading-`0` octal detection, longest valid digit-prefix conversion,
clamping to ULONG_MAX on overflow, and unsigned negation for a minus sign.
A string with no valid digits converts to 0. -/

def ULONG_MAX : Nat := 4294967295

def isSpaceC (c : Char) : Bool :=
  c = ' ' || c = '\t' || c = '\n' || c = '\r' || c = '\x0b' || c = '\x0c'

def digitValC (base : Nat) (c : Char) : Option Nat :=
  let v : Nat :=
    if '0' ≤ c ∧ c ≤ '9' then c.toNat - '0'.toNat
    else if 'a' ≤ c ∧ c ≤ 'z' then c.toNat - 'a'.toNat + 10
    else if 'A' ≤ c ∧ c ≤ 'Z' then c.toNat - 'A'.toNat + 10
    else 99
  if v < base then some v else none

def parseDigitsC (base : Nat) : List Char → Nat → Bool → Nat × Bool
  | [], acc, ovf => (acc, ovf)
  | c :: cs, acc, ovf =>
    match digitValC base c with
    | some d =>
      let acc' := acc * base + d
      if ULONG_MAX < acc' then parseDigitsC base cs (acc' % (ULONG_MAX + 1)) true
      else parseDigitsC base cs acc' ovf
    | none => (acc, ovf)

def strtoul (s : String) : Nat :=
  let cs0 := s.toList.dropWhile isSpaceC
  let signed : Bool × List Char :=
    match cs0 with
    | '-' :: rest => (true, rest)
    | '+' :: rest => (false, rest)
    | rest => (false, rest)
  let based : Nat × List Char :=
    match signed.2 with
    | '0' :: c2 :: rest =>
      if (c2 = 'x' || c2 = 'X') && (digitValC 16 (rest.headD ' ')).isSome
      then (16, rest)
      else (8, '0' :: c2 :: rest)
    | '0' :: [] => (8, ['0'])
    | rest => (10, rest)
  let parsed := parseDigitsC based.1 based.2 0 false
  let mag := if parsed.2 then ULONG_MAX else parsed.1
  if signed.1 then (if mag = 0 then 0 else ULONG_MAX + 1 - mag) else mag

/-- Storage modulus of each console parameter type: the generated
`config_set_param_str` narrows the `unsigned long` conversion result with a
cast (`(uint8_t)parsed`, `(uint16_t)parsed`, `(uint32_t)parsed`). -/
def typeWidth : CParamType → Nat
  | .u8 => 256
  | .enumP => 256
  | .u16 => 65536
  | .u32 => 4294967296
  | .boolP => 2
  | .stringP => 1

/-- Generated `config_set_param_str`, returning the C result code and the
configuration store after the call.  Result codes as emitted: `-1` unknown
parameter (or NULL argument), `-2` out of range, `-3` invalid boolean, `0`
success.  On success the descriptor's `set_fn` is invoked, modelled by
running that setter's event list. -/
def config_set_param_str (table : List ParamDescriptor) (st : CState)
    (name value : String) : Int × CState :=
  match config_find_param table name with
  | none => (-1, st)
  | some p =>
    match p.type with
    | .u8 | .enumP =>
      let parsed := strtoul value
      if parsed < p.min || p.max < parsed then (-2, st)
      else (0, runEvents st (set_fn_events p (.num (parsed % 256))))
    | .u16 =>
      let parsed := strtoul value
      if parsed < p.min || p.max < parsed then (-2, st)
      else (0, runEvents st (set_fn_events p (.num (parsed % 65536))))
    | .u32 =>
      let parsed := strtoul value
      if parsed < p.min || p.max < parsed then (-2, st)
      else (0, runEvents st (set_fn_events p (.num (parsed % 4294967296))))
    | .boolP =>
      if value = "true" || value = "1" || value = "on" || value = "yes" then
        (0, runEvents st (set_fn_events p (.boolv true)))
      else if value = "false" || value = "0" || value = "off" || value = "no" then
        (0, runEvents st (set_fn_events p (.boolv false)))
      else (-3, st)
    | .stringP =>
      (0, runEvents st (set_fn_events p (.strv value)))

/-! ### Pattern matching (generated `config_foreach_matching`) -/

/-- Index of the first `*` in the pattern (`strchr(pattern, '*')`). -/
def firstStarIdx (cs : List Char) : Option Nat := cs.findIdx? (· = '*')

/-- The `rest` pointer of the shallow-wildcard check in the generated
matcher: the full path after the matched prefix text, with one leading path
separator skipped (`if (rest[0] == '.') rest++;`). -/
def afterBoundary (prefLen : Nat) (path : List Char) : List Char :=
  let rest := path.drop prefLen
  if rest.head? = some '.' then rest.tail else rest

/-- The `star[1] == '*'` recursive-wildcard check of the generated matcher. -/
def isRecurAt (pat : List Char) (i : Nat) : Bool :=
  (pat.drop (i + 1)).head? = some '*'

/-- Generated `config_foreach_matching` with a collecting visitor: the list
of descriptors visited, in table order.  Mirrors the C control flow exactly:
an exact `config_find_param` lookup when the pattern holds no `*`; otherwise
the text before the first `*` is copied into a 64-byte stack buffer — hence
truncated to at most 63 characters — one trailing dot is stripped, the
recursive flag is `star[1] == '*'`, and every descriptor is tested: an empty
prefix matches all, otherwise the full path must start with the prefix
(`strncmp`) and, for a shallow wildcard, contain no further `.` after the
prefix boundary. -/
def config_foreach_matching (table : List ParamDescriptor) (pattern : String) :
    List ParamDescriptor :=
  match firstStarIdx pattern.toList with
  | none =>
    match config_find_param table pattern with
    | some p => [p]
    | none => []
  | some i =>
    let pat := pattern.toList
    let len0 := if 64 ≤ i then 63 else i
    let pref0 := pat.take len0
    let pref := if pref0.getLast? = some '.' then pref0.dropLast else pref0
    table.filter fun p =>
      if pref.length = 0 then true
      else if pref.isPrefixOf p.full_path.toList then
        if isRecurAt pat i then true
        else !((afterBoundary pref.length p.full_path.toList).contains '.')
      else false

/-- Specification-side prefix of a wildcard pattern, as the spec wording has
it: the text before the wildcard, with a trailing path separator stripped —
and, unlike the generated C, with no 63-character buffer cap. -/
def claimPrefixBeforeStar (pat : List Char) (i : Nat) : List Char :=
  let p0 := pat.take i
  if p0.getLast? = some '.' then p0.dropLast else p0

/-- Specification-side direct-child match: the full path starts with the
prefix and carries no further path separator after the prefix boundary. -/
def claimDirectChild (pref path : List Char) : Bool :=
  pref.isPrefixOf path && !((afterBoundary pref.length path).contains '.')

/-- Specification-side descendant match: the full path starts with the
prefix. -/
def claimDescendant (pref path : List Char) : Bool :=
  pref.isPrefixOf path

/-! ## The generated NVS persistence (gen_config_c.py → config_nvs.c) -/

/-- Result of `nvs_open(CONFIG_NVS_NAMESPACE, NVS_READONLY, &handle)`:
success, `ESP_ERR_NVS_NOT_FOUND` (namespace absent), or any other error. -/
inductive NvsOpenRes where
  | ok | notFound | otherErr
deriving DecidableEq, Repr

/-- A typed value held by the external NVS store. -/
inductive NvsVal where
  | u8v (n : Nat) | u16v (n : Nat) | u32v (n : Nat) | strv (s : String)
deriving DecidableEq, Repr

/-- External NVS collaborator, modelled by its contract (a namespaced typed
key-value store with explicit not-found signalling): the outcome of opening
the configuration namespace, and the stored typed entries. -/
structure NvsStore where
  openRes : NvsOpenRes
  entry : String → Option NvsVal

/-- Typed get: succeeds (ESP_OK) only when the key exists with that type. -/
def nvs_get_u8 (nv : NvsStore) (k : String) : Option Nat :=
  match nv.entry k with | some (.u8v n) => some n | _ => none

def nvs_get_u16 (nv : NvsStore) (k : String) : Option Nat :=
  match nv.entry k with | some (.u16v n) => some n | _ => none

def nvs_get_u32 (nv : NvsStore) (k : String) : Option Nat :=
  match nv.entry k with | some (.u32v n) => some n | _ => none

/-- String get into a buffer of capacity `cap` characters plus terminator
(`str_len = sizeof(...)`): fails when the stored string does not fit. -/
def nvs_get_str (nv : NvsStore) (k : String) (cap : Nat) : Option String :=
  match nv.entry k with
  | some (.strv s) => if s.length ≤ cap then some s else none
  | _ => none

/-- The per-parameter data the generated `config_load_from_nvs` bakes into
each load block: target field path, NVS key (the `NVS_*` define, i.e. the
schema's `nvs_key`), the parameter type and, for strings, the buffer
capacity. -/
structure LoadParam where
  full_path : String
  nvs_key : String
  type : CParamType
  max_length : Nat
deriving DecidableEq, Repr

/-- Whether the generated per-key load finds its key (the
`nvs_get_* == ESP_OK` condition of the emitted block). -/
def load_hits (nv : NvsStore) (p : LoadParam) : Bool :=
  match p.type with
  | .u8 | .enumP | .boolP => (nvs_get_u8 nv p.nvs_key).isSome
  | .u16 => (nvs_get_u16 nv p.nvs_key).isSome
  | .u32 => (nvs_get_u32 nv p.nvs_key).isSome
  | .stringP => (nvs_get_str nv p.nvs_key p.max_length).isSome

/-- One generated load block: on ESP_OK the value is stored into the field
(with relaxed ordering, `u8_val != 0` for bools) and the counter is
incremented; on any failure the field is left untouched and loading
continues. -/
def load_one (nv : NvsStore) (acc : Nat × CState) (p : LoadParam) : Nat × CState :=
  match p.type with
  | .u8 | .enumP =>
    match nvs_get_u8 nv p.nvs_key with
    | some n => (acc.1 + 1, setIntField acc.2 p.full_path n)
    | none => acc
  | .boolP =>
    match nvs_get_u8 nv p.nvs_key with
    | some n => (acc.1 + 1, setIntField acc.2 p.full_path (if n ≠ 0 then 1 else 0))
    | none => acc
  | .u16 =>
    match nvs_get_u16 nv p.nvs_key with
    | some n => (acc.1 + 1, setIntField acc.2 p.full_path n)
    | none => acc
  | .u32 =>
    match nvs_get_u32 nv p.nvs_key with
    | some n => (acc.1 + 1, setIntField acc.2 p.full_path n)
    | none => acc
  | .stringP =>
    match nvs_get_str nv p.nvs_key p.max_length with
    | some s => (acc.1 + 1, setStrField acc.2 p.full_path s)
    | none => acc

/-- Generated `config_load_from_nvs`: returns 0 untouched when the namespace
does not exist, -1 on any other open failure, otherwise iterates every
parameter in declaration order and returns the number of keys loaded. -/
def config_load_from_nvs (ps : List LoadParam) (nv : NvsStore) (st : CState) :
    Int × CState :=
  match nv.openRes with
  | .notFound => (0, st)
  | .otherErr => (-1, st)
  | .ok =>
    let r := ps.foldl (load_one nv) (0, st)
    ((r.1 : Int), r.2)

/-! ## The generator pipeline itself (gen_config_c.py `main` and helpers)

The pipeline model captures exactly which dictionary keys each generation
phase reads, in source order, and which artifact file each phase writes.
The emitted text itself is abstracted to the artifact file name: the claims
about the pipeline concern error behaviour and write ordering, not the
bytes written.  A failed dictionary access is a Python `KeyError`, a failed
`list.index` a `ValueError` — there is no `SchemaError` anywhere in the
source. -/

/-- Unhandled Python exception raised by the generator. -/
inductive PyErr where
  | keyErr (k : String)
  | valErr
deriving DecidableEq, Repr

/-- A YAML scalar as it appears in a parameter's `default`. -/
inductive PyVal where
  | pbool (b : Bool)
  | pnat (n : Nat)
  | pstr (s : String)
deriving DecidableEq, Repr

/-- Python `str()` rendering of a default scalar. -/
def pyStr : PyVal → String
  | .pbool true => "True"
  | .pbool false => "False"
  | .pnat n => toString n
  | .pstr s => s

/-- The `gui` block of a parameter; only the `label_long.en` chain is read by
a raising access (`param['gui']['label_long']['en']` in `get_field_comment`);
the two dictionary hops below `gui` are collapsed into one optional field. -/
structure PGui where
  label_long_en? : Option String
deriving DecidableEq, Repr

/-- The raw YAML mapping of one parameter, before `parse_v2_schema` annotates
it: every key the generator ever reads, each optional exactly as in a Python
dict. -/
structure PRaw where
  type? : Option String := none
  default? : Option PyVal := none
  enum_values? : Option (List String) := none
  range? : Option (Nat × Nat) := none
  max_length? : Option Nat := none
  nvs_key? : Option String := none
  gui? : Option PGui := none
deriving DecidableEq, Repr

/-- A parameter after `parse_v2_schema`: the raw mapping plus the injected
`name`, `family`, optional `subfamily` and `full_path` keys. -/
structure PParam extends PRaw where
  name : String
  family : Option String := none
  subfamily : Option String := none
  full_path : String
deriving DecidableEq, Repr

/-- A subfamily mapping of the v2 schema. -/
structure SubRaw where
  is_composite : Bool := false
  parameters : List (String × PRaw) := []
deriving DecidableEq, Repr

/-- A family mapping of the v2 schema (only the keys the pipeline reads;
all family metadata is read with defaulting `.get`, hence optional). -/
structure FamilyRaw where
  order? : Option Nat := none
  aliases? : Option (List String) := none
  parameters : List (String × PRaw) := []
  subfamilies : List (String × SubRaw) := []
deriving DecidableEq, Repr

/-- A v2 schema: the ordered `families` mapping. -/
structure SchemaV2 where
  families : List (String × FamilyRaw)
deriving DecidableEq, Repr

/-- Family metadata record built by `parse_v2_schema` (the fields consumed by
later phases; icon/label/description are defaulted pass-through strings). -/
structure FamilyMeta where
  name : String
  order : Nat
  aliases : List String
deriving DecidableEq, Repr

/-- Parameters contributed by the direct `parameters` mapping of a family. -/
def directParams (fn : String) (fd : FamilyRaw) : List PParam :=
  fd.parameters.map fun pr =>
    { toPRaw := pr.2, name := pr.1, family := some fn, subfamily := none,
      full_path := fn ++ "." ++ pr.1 }

/-- Parameters contributed by one (non-composite) subfamily. -/
def subParams (fn sn : String) (sd : SubRaw) : List PParam :=
  sd.parameters.map fun pr =>
    { toPRaw := pr.2, name := pr.1, family := some fn, subfamily := some sn,
      full_path := fn ++ "." ++ sn ++ "." ++ pr.1 }

/-- All parameters of one family: direct ones first, then the subfamily ones,
with `is_composite` subfamilies skipped entirely. -/
def familyParams (fn : String) (fd : FamilyRaw) : List PParam :=
  directParams fn fd ++
    (fd.subfamilies.filter fun sp => !sp.2.is_composite).flatMap fun sp =>
      subParams fn sp.1 sp.2

/-- Stable insertion into a list sorted by `order` (models Python's stable
`list.sort(key=lambda f: f['order'])`). -/
def insertByOrder (f : FamilyMeta) : List FamilyMeta → List FamilyMeta
  | [] => [f]
  | g :: gs => if f.order < g.order then f :: g :: gs else g :: insertByOrder f gs

def sortFamilies : List FamilyMeta → List FamilyMeta
  | [] => []
  | f :: fs => insertByOrder f (sortFamilies fs)

/-- `parse_v2_schema`: flattens the hierarchical schema into the annotated
parameter list (declaration order) and the family list sorted by `order`.
Note: it performs no validation of any kind — no required-field check, no
duplicate-full-path check, no range check. -/
def parse_v2_schema (s : SchemaV2) : List PParam × List FamilyMeta :=
  let params := s.families.flatMap fun fp => familyParams fp.1 fp.2
  let fams := s.families.map fun fp =>
    { name := fp.1, order := fp.2.order?.getD 0,
      aliases := fp.2.aliases?.getD [] : FamilyMeta }
  (params, sortFamilies fams)

/-- Python `list.index`: position of the default in `enum_values`, or a
`ValueError` (modelled as `none` here) when absent; a non-string default
never equals a string member. -/
def listIndex (evs : List String) (d : PyVal) : Option Nat :=
  match d with
  | .pstr s => evs.findIdx? (· = s)
  | _ => none

/-- The second (shadowing) definition of `is_string_type`:
`param.get('type') == 'string'`, a non-raising access. -/
def is_string_type (p : PParam) : Bool := p.type? == some "string"

/-- `get_string_max_length`: `param.get('max_length', 32)`. -/
def get_string_max_length (p : PParam) : Nat := p.max_length?.getD 32

/-- `get_field_comment`: reads `param['gui']['label_long']['en']` — each hop
a raising dictionary access — and renders the optional range suffix. -/
def get_field_comment (p : PParam) : Except PyErr String :=
  match p.gui? with
  | none => .error (.keyErr "gui")
  | some g =>
    match g.label_long_en? with
    | none => .error (.keyErr "label_long")
    | some lab =>
      match p.range? with
      | some r => .ok (lab ++ " (" ++ toString r.1 ++ "-" ++ toString r.2 ++ ")")
      | none => .ok lab

/-- The C11 atomic type table of `get_c_atomic_type`, with its
`.get(..., 'atomic_uint')` fallback. -/
def c_atomic_type_map (t : String) : String :=
  if t = "u8" then "atomic_uchar"
  else if t = "u16" then "atomic_ushort"
  else if t = "u32" then "atomic_uint"
  else if t = "bool" then "atomic_bool"
  else if t = "enum" then "atomic_uchar"
  else "atomic_uint"

/-- `get_c_atomic_type`: strings map to a char array; otherwise
`param['type']` is read (raising) and mapped. -/
def get_c_atomic_type (p : PParam) : Except PyErr String :=
  if is_string_type p then
    .ok ("char[" ++ toString (get_string_max_length p + 1) ++ "]")
  else
    match p.type? with
    | none => .error (.keyErr "type")
    | some t => .ok (c_atomic_type_map t)

/-- Python's `str.lower()` on the ASCII schema scalars, modelled
character-wise. -/
def lowerA (s : String) : String := String.mk (s.toList.map Char.toLower)

/-- `get_default_value`: renders the C literal for a parameter's default.
Reads `param['type']` (raising); for bools and plain integers reads
`param['default']` (raising); for enums reads `param['enum_values']` and
`param['default']` (raising) and calls `list.index` (ValueError when the
default is not a member); the string branch uses only defaulting `.get`. -/
def get_default_value (p : PParam) : Except PyErr (String × Option String) :=
  match p.type? with
  | none => .error (.keyErr "type")
  | some t =>
    if t = "bool" then
      match p.default? with
      | none => .error (.keyErr "default")
      | some d => .ok (lowerA (pyStr d), none)
    else if t = "enum" then
      match p.enum_values? with
      | none => .error (.keyErr "enum_values")
      | some evs =>
        match p.default? with
        | none => .error (.keyErr "default")
        | some d =>
          match listIndex evs d with
          | some i => .ok (toString i, some (pyStr d))
          | none => .error .valErr
    else if t = "string" then
      .ok ("\"" ++ pyStr (p.default?.getD (.pstr "")) ++ "\"", none)
    else
      match p.default? with
      | none => .error (.keyErr "default")
      | some d => .ok (pyStr d, none)

/-- The raising accesses `generate_config_h` performs for one parameter while
building the struct text, in source order: the field comment, then (for
non-strings) the atomic type. -/
def configH_check (p : PParam) : Except PyErr Unit :=
  match get_field_comment p with
  | .error e => .error e
  | .ok _ =>
    if is_string_type p then .ok ()
    else
      match get_c_atomic_type p with
      | .error e => .error e
      | .ok _ => .ok ()

/-- The raising access of `generate_config_c`: `get_default_value`. -/
def configC_check (p : PParam) : Except PyErr Unit :=
  match get_default_value p with
  | .error e => .error e
  | .ok _ => .ok ()

/-- The raising access of `generate_config_nvs_h`: `param['nvs_key']`. -/
def nvsH_check (p : PParam) : Except PyErr Unit :=
  match p.nvs_key? with
  | none => .error (.keyErr "nvs_key")
  | some _ => .ok ()

/-- The raising access of `generate_config_nvs_c`, `generate_config_console_c`
and `generate_config_schema_json`: `param['type']`. -/
def typeOnly_check (p : PParam) : Except PyErr Unit :=
  match p.type? with
  | none => .error (.keyErr "type")
  | some _ => .ok ()

/-- Runs a per-parameter raising access over a list, stopping at the first
exception (the Python for-loop). -/
def checkList (f : PParam → Except PyErr Unit) : List PParam → Except PyErr Unit
  | [] => .ok ()
  | p :: ps =>
    match f p with
    | .ok _ => checkList f ps
    | .error e => .error e

/-- `generate_config_h` iterates the struct fields family by family (sorted
family order, declaration order inside each family): the by_family grouping. -/
def groupedParams (params : List PParam) (fams : List FamilyMeta) : List PParam :=
  fams.flatMap fun f => params.filter fun p => p.family == some f.name

/-- Outcome of a generator run: the artifact files written, in order, and the
unhandled exception that aborted the run, if any. -/
structure GenResult where
  written : List String
  err : Option PyErr
deriving DecidableEq, Repr

/-- Executes the generation phases in order: each phase performs its raising
accesses while building its output text and, only if none raises, writes its
artifact file; an exception aborts the remaining phases but the files already
written stay on disk. -/
def runPhases : List (Except PyErr Unit × String) → List String → GenResult
  | [], acc => { written := acc.reverse, err := none }
  | (c, f) :: rest, acc =>
    match c with
    | .ok _ => runPhases rest (f :: acc)
    | .error e => { written := acc.reverse, err := some e }

/-- The artifact files of a complete run, in write order (`config.c` is
written by `generate_config_c`, called at the end of `generate_config_h`). -/
def allArtifacts : List String :=
  ["config.h", "config.c", "config_meta.h", "config_nvs.h", "config_nvs.c",
   "config_console.h", "config_console.c", "config_schema.h"]

/-- The whole `main` pipeline on a v2 schema: `parse_v2_schema`, then the
eight generation phases in call order.  `generate_config_meta_h` and
`generate_config_console_h` perform no raising per-parameter access. -/
def mainGenerate (s : SchemaV2) : GenResult :=
  let params := (parse_v2_schema s).1
  let fams := (parse_v2_schema s).2
  runPhases
    [ (checkList configH_check (groupedParams params fams), "config.h"),
      (checkList configC_check params, "config.c"),
      (.ok (), "config_meta.h"),
      (checkList nvsH_check params, "config_nvs.h"),
      (checkList typeOnly_check params, "config_nvs.c"),
      (.ok (), "config_console.h"),
      (checkList typeOnly_check params, "config_console.c"),
      (checkList typeOnly_check params, "config_schema.h") ] []

/-- Field-completeness of one raw parameter: the `gui.label_long.en` chain,
`nvs_key` and `type` are present, the default is present for non-string
types, and an enum's default is a member of its `enum_values`.  This notion
deliberately does NOT require distinct full paths nor a default inside the
declared range — the generator never checks either. -/
def wellFormedRaw (r : PRaw) : Bool :=
  (match r.gui? with
   | some g => g.label_long_en?.isSome
   | none => false) &&
  r.nvs_key?.isSome &&
  (match r.type? with
   | none => false
   | some t =>
     if t = "string" then true
     else if t = "enum" then
       (match r.enum_values?, r.default? with
        | some evs, some (.pstr d) => (evs.findIdx? (· = d)).isSome
        | _, _ => false)
     else r.default?.isSome)

/-- All raw parameter mappings of a family, direct and subfamily alike. -/
def familyRaws (fd : FamilyRaw) : List PRaw :=
  fd.parameters.map (·.2) ++
    fd.subfamilies.flatMap fun sp => sp.2.parameters.map (·.2)

/-! ## Collision detection (generate_config_h, `name_counts`) -/

/-- Python's `str.upper()` on the ASCII identifiers of the schema, modelled
character-wise (ASCII upper-casing). -/
def upperA (s : String) : String := String.mk (s.toList.map Char.toUpper)

/-- The `name_counts` dictionary of `generate_config_h`: how many parameters
schema-wide share the given upper-cased short name. -/
def name_counts (params : List PParam) (n : String) : Nat :=
  (params.filter fun p => upperA p.name == n).length

/-- Python truthiness of `p.get('family', None)`. -/
def familyTruthy (p : PParam) : Bool :=
  match p.family with
  | some f => f != ""
  | none => false

/-- The external accessor identifier stem chosen by `generate_config_h`
(the `macro_upper` variable): family-prefixed exactly when the families list
is truthy, the parameter has a truthy family, and `name_counts` exceeds 1 —
i.e. the short name occurs at least twice schema-wide, regardless of whether
the occurrences lie in different families. -/
def externalIdent (fams : List FamilyMeta) (params : List PParam) (p : PParam) :
    String :=
  let upper := upperA p.name
  if !fams.isEmpty && familyTruthy p && decide (1 < name_counts params upper) then
    (match p.family with | some f => upperA f | none => "") ++ "_" ++ upper
  else upper

/-- Specification-side notion for the collision claim: the distinct families
in which a short name occurs. -/
def familiesWithName (params : List PParam) (n : String) : List String :=
  ((params.filter fun p => p.name == n).filterMap (fun p => p.family)).dedup

/-! ## The generated Rust preset container (gen_preset_config.py) -/

/-- One generated `IambicPreset`: atomic fields, with the two percentage
fields holding raw f32 bit patterns inside an AtomicU32. -/
structure IambicPreset where
  speed_wpm : Nat
  iambic_mode : Nat
  memory_mode : Nat
  squeeze_mode : Nat
  mem_block_start_pct : Nat
  mem_block_end_pct : Nat
deriving DecidableEq, Repr

/-- The generated `IambicPresets` container: the preset array (whose length
is the schema's `count`, baked into the emitted code as a literal) and the
`active_index` AtomicU32. -/
structure IambicPresets where
  presets : List IambicPreset
  active_index : Nat
deriving DecidableEq, Repr

/-- Generated `active()`: `&self.presets[idx.min(count - 1)]`. -/
def IambicPresets.active (c : IambicPresets) : Option IambicPreset :=
  c.presets[min c.active_index (c.presets.length - 1)]?

/-- Generated `activate(index)`: stores only when `index < count`. -/
def IambicPresets.activate (c : IambicPresets) (index : Nat) : IambicPresets :=
  if index < c.presets.length then { c with active_index := index } else c

/-- Generated `get(index)`: checked access returning `Option`. -/
def IambicPresets.get (c : IambicPresets) (index : Nat) : Option IambicPreset :=
  if index < c.presets.length then c.presets[index]? else none

/-! ## The generated Rust console registry (gen_config.py) -/

/-- The generated `ParamValue` enum. -/
inductive ParamValue where
  | u8 (v : Nat)
  | u16 (v : Nat)
  | u32 (v : Nat)
  | bool (v : Bool)
deriving DecidableEq, Repr

def ParamValue.as_u8 : ParamValue → Option Nat
  | .u8 v => some v
  | _ => none

def ParamValue.as_u16 : ParamValue → Option Nat
  | .u16 v => some v
  | _ => none

def ParamValue.as_u32 : ParamValue → Option Nat
  | .u32 v => some v
  | _ => none

def ParamValue.as_bool : ParamValue → Option Bool
  | .bool v => some v
  | _ => none

/-- The generated `ParamSetError`. -/
inductive ParamSetError where
  | InvalidValue
deriving DecidableEq, Repr

/-- The `ParamValue` variant a generated `set_fn` closure expects — the
`set_variant` chosen by `generate_config_console_rs` (`as_u8` for u8 and
enum parameters, `as_u16`/`as_u32`/`as_bool` for the rest). -/
inductive RsKind where
  | u8 | u16 | u32 | boolK
deriving DecidableEq, Repr

/-- Runtime state of the generated Rust `CONFIG`: numeric atomic fields,
boolean atomic fields, and the AtomicU16 generation counter. -/
structure RsConfig where
  nfields : String → Nat
  bfields : String → Bool
  generation : Nat

/-- Generated `KeyerConfig::bump_generation`:
`self.generation.fetch_add(1, Ordering::Release)` on an AtomicU16. -/
def RsConfig.bump_generation (c : RsConfig) : RsConfig :=
  { c with generation := (c.generation + 1) % 65536 }

/-- One generated `set_fn` closure: `if let Some(val) = v.as_<variant>()`
stores the value (relaxed) and bumps the generation, else returns
`Err(ParamSetError::InvalidValue)` touching nothing.  No range check of any
kind appears in the emitted closure. -/
def gen_set_fn (k : RsKind) (name : String) (v : ParamValue) (cfg : RsConfig) :
    Except ParamSetError Unit × RsConfig :=
  match k with
  | .u8 =>
    match v.as_u8 with
    | some val =>
      (.ok (), RsConfig.bump_generation
        { cfg with nfields := fun s => if s = name then val else cfg.nfields s })
    | none => (.error .InvalidValue, cfg)
  | .u16 =>
    match v.as_u16 with
    | some val =>
      (.ok (), RsConfig.bump_generation
        { cfg with nfields := fun s => if s = name then val else cfg.nfields s })
    | none => (.error .InvalidValue, cfg)
  | .u32 =>
    match v.as_u32 with
    | some val =>
      (.ok (), RsConfig.bump_generation
        { cfg with nfields := fun s => if s = name then val else cfg.nfields s })
    | none => (.error .InvalidValue, cfg)
  | .boolK =>
    match v.as_bool with
    | some val =>
      (.ok (), RsConfig.bump_generation
        { cfg with bfields := fun s => if s = name then val else cfg.bfields s })
    | none => (.error .InvalidValue, cfg)

/-! ## Concrete instances used by the theorems below -/

/-- The spec's worked example table: full paths
`keyer.wpm`, `keyer.tone.pitch`, `leds.brightness`. -/
def dWpm : ParamDescriptor :=
  { name := "wpm", family := "keyer", full_path := "keyer.wpm",
    type := .u8, min := 5, max := 99 }

def dPitch : ParamDescriptor :=
  { name := "pitch", family := "keyer", full_path := "keyer.tone.pitch",
    type := .u16, min := 100, max := 2000 }

def dBright : ParamDescriptor :=
  { name := "brightness", family := "leds", full_path := "leds.brightness",
    type := .u8, min := 0, max := 255 }

def demoTable : List ParamDescriptor := [dWpm, dPitch, dBright]

/-- A shallow-wildcard pattern whose prefix is 64 characters long — one past
the generated matcher's 63-character buffer cap. -/
def longPat : String := String.mk (List.replicate 64 'a' ++ ['.', '*'])

/-- A descriptor whose full path starts with the truncated 63-character
prefix but not with the pattern's true 64-character prefix. -/
def dLong : ParamDescriptor :=
  { name := "x", family := "f",
    full_path := String.mk (List.replicate 63 'a' ++ ['b']),
    type := .u8, min := 0, max := 255 }

/-- A u8 parameter whose declared range exceeds the u8 storage width, as the
generator will happily emit for schema `range: [0, 300]` on `type: u8`. -/
def dWide : ParamDescriptor :=
  { name := "p", family := "f", full_path := "f.p",
    type := .u8, min := 0, max := 300 }

/-- A u8 parameter with range [0, 10] whose range admits 0. -/
def dTen : ParamDescriptor :=
  { name := "q", family := "f", full_path := "f.q",
    type := .u8, min := 0, max := 10 }

/-- A u8 parameter with range [10, 20]. -/
def dMid : ParamDescriptor :=
  { name := "r", family := "f", full_path := "f.r",
    type := .u8, min := 10, max := 20 }

/-- An arbitrary configuration store with all numeric fields 7. -/
def st7 : CState :=
  { ints := fun _ => 7, strs := fun _ => "", generation := 0 }

/-- Two descriptors where an earlier bare name equals a later full path:
a parameter named `a.b` (a dict key may contain a dot) in family `x`, and a
parameter `b` of family `a` with full path `a.b`. -/
def dDotName : ParamDescriptor :=
  { name := "a.b", family := "x", full_path := "x.a.b",
    type := .u8, min := 0, max := 255 }

def dPlainB : ParamDescriptor :=
  { name := "b", family := "a", full_path := "a.b",
    type := .u8, min := 0, max := 255 }

/-- A well-formed gui block. -/
def guiOK : PGui := { label_long_en? := some "Label" }

/-- A field-complete u8 raw parameter whose default 99 lies outside its
declared range [1, 5]. -/
def rawU8OutOfRange : PRaw :=
  { type? := some "u8", default? := some (.pnat 99), range? := some (1, 5),
    nvs_key? := some "k1", gui? := some guiOK }

/-- Schema with two parameters resolving to the same full path `a.b.c`
(family `a`, subfamily `b`, parameter `c` — and family `a.b`, parameter `c`),
one of them with an out-of-range default. -/
def schemaDupPath : SchemaV2 :=
  { families :=
      [ ("a", { order? := some 0, parameters := [],
                subfamilies := [("b", { parameters := [("c", rawU8OutOfRange)] })] }),
        ("a.b", { order? := some 1, parameters := [("c", rawU8OutOfRange)] }) ] }

/-- The first of the two parameters of `schemaDupPath` sharing full path
`a.b.c`, as `parse_v2_schema` produces it. -/
def pDup : PParam :=
  { toPRaw := rawU8OutOfRange, name := "c", family := some "a",
    subfamily := some "b", full_path := "a.b.c" }

/-- A raw parameter lacking the required `type` field. -/
def rawNoType : PRaw :=
  { default? := some (.pnat 1), nvs_key? := some "k", gui? := some guiOK }

def schemaNoType : SchemaV2 :=
  { families := [("f", { parameters := [("p", rawNoType)] })] }

/-- An enum raw parameter whose default is not a member of `enum_values`. -/
def rawBadEnum : PRaw :=
  { type? := some "enum", default? := some (.pstr "zz"),
    enum_values? := some ["aa", "bb"], nvs_key? := some "k", gui? := some guiOK }

def schemaBadEnum : SchemaV2 :=
  { families := [("f", { parameters := [("p", rawBadEnum)] })] }

/-- Two parameters with the same short name `wpm` inside the single family
`keyer` (one direct, one in subfamily `tone`). -/
def p6a : PParam :=
  { toPRaw := rawU8OutOfRange, name := "wpm", family := some "keyer",
    subfamily := none, full_path := "keyer.wpm" }

def p6b : PParam :=
  { toPRaw := rawU8OutOfRange, name := "wpm", family := some "keyer",
    subfamily := some "tone", full_path := "keyer.tone.wpm" }

def params6 : List PParam := [p6a, p6b]

def fams6 : List FamilyMeta := [{ name := "keyer", order := 0, aliases := [] }]

/-- The spec's disambiguation example: `brightness` declared in two distinct
families. -/
def p6c : PParam :=
  { toPRaw := rawU8OutOfRange, name := "brightness", family := some "leds",
    subfamily := none, full_path := "leds.brightness" }

def p6d : PParam :=
  { toPRaw := rawU8OutOfRange, name := "brightness", family := some "keyer",
    subfamily := none, full_path := "keyer.brightness" }

def params6b : List PParam := [p6c, p6d]

def fams6b : List FamilyMeta :=
  [{ name := "leds", order := 0, aliases := [] },
   { name := "keyer", order := 1, aliases := [] }]

/-- NVS load-table extract of the demo parameters. -/
def lpWpm : LoadParam :=
  { full_path := "keyer.wpm", nvs_key := "k_wpm", type := .u8, max_length := 0 }

def lpPitch : LoadParam :=
  { full_path := "keyer.tone.pitch", nvs_key := "k_pitch", type := .u16,
    max_length := 0 }

def loadTable : List LoadParam := [lpWpm, lpPitch]

/-- An NVS store that opens fine and holds only the pitch key. -/
def nvsOnlyPitch : NvsStore :=
  { openRes := .ok,
    entry := fun k => if k = "k_pitch" then some (.u16v 700) else none }

/-- Ten default presets with the stored index pointing far past the end. -/
def presetDefault : IambicPreset :=
  { speed_wpm := 25, iambic_mode := 1, memory_mode := 3, squeeze_mode := 0,
    mem_block_start_pct := 1112014848, mem_block_end_pct := 1117126656 }

def presets10 : IambicPresets :=
  { presets := List.replicate 10 presetDefault, active_index := 999 }

/-- An arbitrary Rust configuration state. -/
def cfg0 : RsConfig :=
  { nfields := fun _ => 0, bfields := fun _ => false, generation := 41 }

/-! ## Helper lemmas on the generated lookup -/

theorem find_param_sound {q : String} :
    ∀ {t : List ParamDescriptor} {p}, config_find_param t q = some p →
      p ∈ t ∧ (p.full_path = q ∨ p.name = q) := by
  intro t
  induction t with
  | nil => intro p h; simp [config_find_param] at h
  | cons a rest ih =>
    intro p h
    simp only [config_find_param] at h
    by_cases h1 : a.full_path = q
    · rw [if_pos h1] at h
      injection h with h'
      subst h'
      exact ⟨List.mem_cons_self _ _, Or.inl h1⟩
    · rw [if_neg h1] at h
      by_cases h2 : a.name = q
      · rw [if_pos h2] at h
        injection h with h'
        subst h'
        exact ⟨List.mem_cons_self _ _, Or.inr h2⟩
      · rw [if_neg h2] at h
        obtain ⟨hm, hq⟩ := ih h
        exact ⟨List.mem_cons_of_mem _ hm, hq⟩

theorem find_param_none {q : String} :
    ∀ {t : List ParamDescriptor},
      (∀ p ∈ t, p.full_path ≠ q ∧ p.name ≠ q) → config_find_param t q = none := by
  intro t
  induction t with
  | nil => intro _; rfl
  | cons a rest ih =>
    intro h
    have ha := h a (List.mem_cons_self _ _)
    simp only [config_find_param, if_neg ha.1, if_neg ha.2]
    exact ih fun p hp => h p (List.mem_cons_of_mem _ hp)

theorem find_param_eq_find? (t : List ParamDescriptor) (q : String) :
    config_find_param t q = t.find? fun p => p.full_path == q || p.name == q := by
  induction t with
  | nil => rfl
  | cons a rest ih =>
    simp only [config_find_param, List.find?]
    by_cases h1 : a.full_path = q
    · simp [h1]
    · by_cases h2 : a.name = q
      · simp [h1, h2]
      · have hb : (a.full_path == q || a.name == q) = false := by simp [h1, h2]
        simp only [if_neg h1, if_neg h2, hb, ih]

theorem find_param_first {q : String} :
    ∀ (l₁ : List ParamDescriptor) (d : ParamDescriptor) (l₂ : List ParamDescriptor),
      (∀ e ∈ l₁, e.full_path ≠ q ∧ e.name ≠ q) →
      (d.full_path = q ∨ d.name = q) →
      config_find_param (l₁ ++ d :: l₂) q = some d := by
  intro l₁
  induction l₁ with
  | nil =>
    intro d l₂ _ hd
    by_cases hf : d.full_path = q
    · simp [config_find_param, hf]
    · rcases hd with h | h
      · exact absurd h hf
      · simp [config_find_param, hf, h]
  | cons a rest ih =>
    intro d l₂ hl hd
    have ha := hl a (List.mem_cons_self _ _)
    simp only [List.cons_append, config_find_param, if_neg ha.1, if_neg ha.2]
    exact ih d l₂ (fun e he => hl e (List.mem_cons_of_mem _ he)) hd

/-! ## C8 — parameter lookup order -/

/-- C8 counterexample: the generated lookup is a single interleaved pass, so
the earlier descriptor `dDotName`, whose bare *name* is `a.b`, wins over the
later descriptor `dPlainB` whose *full path* is exactly `a.b` — the claim
"an exact full-path match is found first" fails on this table. -/
theorem c8_counterexample :
    config_find_param [dDotName, dPlainB] "a.b" = some dDotName ∧
    dDotName.full_path ≠ "a.b" ∧
    dPlainB ∈ [dDotName, dPlainB] ∧ dPlainB.full_path = "a.b" := by
  refine ⟨by decide, by decide, by decide, by decide⟩

/-- C8 (amended): the generated `config_find_param` scans the descriptor
table once in declaration order, testing each descriptor's full path first
and then its bare name, and returns the first descriptor matching either —
so an earlier bare-name match shadows a later full-path match; several
descriptors sharing the queried bare name resolve to the first in
declaration order without an error, and an unknown name yields no
descriptor. -/
theorem c8_theorem (table : List ParamDescriptor) (q : String) :
    config_find_param table q =
      (table.find? fun p => p.full_path == q || p.name == q) ∧
    ((∀ p ∈ table, p.full_path ≠ q ∧ p.name ≠ q) →
      config_find_param table q = none) ∧
    (∀ p, config_find_param table q = some p →
      p ∈ table ∧ (p.full_path = q ∨ p.name = q)) ∧
    (∀ (l₁ : List ParamDescriptor) (d : ParamDescriptor) l₂,
      table = l₁ ++ d :: l₂ →
      (∀ e ∈ l₁, e.full_path ≠ q ∧ e.name ≠ q) →
      (d.full_path = q ∨ d.name = q) →
      config_find_param table q = some d) :=
  ⟨find_param_eq_find? table q,
   fun h => find_param_none h,
   fun _ h => find_param_sound h,
   fun l₁ d l₂ ht h1 hd => ht ▸ find_param_first l₁ d l₂ h1 hd⟩

/-- C8 witness: an unknown name yields no descriptor on a concrete table. -/
theorem c8_witness : config_find_param [dDotName, dPlainB] "zzz" = none :=
  (c8_theorem [dDotName, dPlainB] "zzz").2.1 (by decide)

/-! ## C5 — mutator publication order and generation arithmetic -/

/-- C5: every generated setter performs exactly two memory accesses, in
program order a write of the new field value (a relaxed atomic store for
numeric/bool/enum fields, a plain `strncpy` for string fields) strictly
before the release-ordered `fetch_add` of 1 on the shared 16-bit generation
counter; the counter after the set equals its previous value plus one,
modulo 2^16. -/
theorem c5_theorem (d : ParamDescriptor) (v : SetVal) (st : CState) :
    (∃ e : MemEvent,
        set_fn_events d v = [e, .fetchAddGen 1 .release] ∧
        (∀ p n o, e = .storeInt p n o → p = d.full_path ∧ o = .relaxed) ∧
        (∀ p s, e = .copyStr p s → p = d.full_path) ∧
        (∀ n o, e ≠ .fetchAddGen n o)) ∧
    (runEvents st (set_fn_events d v)).generation = (st.generation + 1) % 65536 ∧
    (d.type ≠ .stringP →
      (runEvents st (set_fn_events d v)).ints d.full_path = v.asNum) := by
  obtain ⟨nm, fa, fp, ty, mn, mx⟩ := d
  cases ty <;>
    first
      | exact ⟨⟨.storeInt fp v.asNum .relaxed, rfl,
          fun p n' o h => by injection h with h1 h2 h3; exact ⟨h1.symm, h3.symm⟩,
          fun p s h => absurd h (by simp),
          fun n' o => by simp⟩,
        by simp [set_fn_events, runEvents, applyEvent, setIntField],
        fun _ => by simp [set_fn_events, runEvents, applyEvent, setIntField]⟩
      | exact ⟨⟨.copyStr fp (strTake v.asStr mx), rfl,
          fun p n' o h => absurd h (by simp),
          fun p s h => by injection h with h1 h2; exact h1.symm,
          fun n' o => by simp⟩,
        by simp [set_fn_events, runEvents, applyEvent, setStrField],
        fun hne => absurd rfl hne⟩

/-- C5 witness for its conditional conjunct: a concrete non-string setter
stores the supplied value at the parameter's field. -/
theorem c5_witness :
    (runEvents st7 (set_fn_events dMid (.num 15))).ints "f.r" = 15 :=
  (c5_theorem dMid (.num 15) st7).2.2 (by decide)

/-! ## C10 — Rust set_fn validates only the variant -/

/-- C10: every generated Rust `set_fn` closure checks only that the supplied
`ParamValue` carries the variant the parameter expects: a matching variant
is stored unconditionally (no range check exists in the closure) and the
generation counter is bumped by one modulo 2^16; a mismatching variant
returns `InvalidValue` and leaves the whole configuration — field values and
generation counter — unchanged. -/
theorem c10_theorem (k : RsKind) (name : String) (v : ParamValue) (cfg : RsConfig) :
    ((gen_set_fn k name v cfg).1 = .error .InvalidValue →
        (gen_set_fn k name v cfg).2 = cfg) ∧
    ((gen_set_fn k name v cfg).1 = .ok () →
        (gen_set_fn k name v cfg).2.generation = (cfg.generation + 1) % 65536) ∧
    (∀ val, k = .u8 → v.as_u8 = some val →
        (gen_set_fn k name v cfg).1 = .ok () ∧
        (gen_set_fn k name v cfg).2.nfields name = val) ∧
    (k = .u8 → v.as_u8 = none →
        gen_set_fn k name v cfg = (.error .InvalidValue, cfg)) ∧
    (∀ val, k = .u16 → v.as_u16 = some val →
        (gen_set_fn k name v cfg).1 = .ok () ∧
        (gen_set_fn k name v cfg).2.nfields name = val) ∧
    (k = .u16 → v.as_u16 = none →
        gen_set_fn k name v cfg = (.error .InvalidValue, cfg)) ∧
    (∀ val, k = .u32 → v.as_u32 = some val →
        (gen_set_fn k name v cfg).1 = .ok () ∧
        (gen_set_fn k name v cfg).2.nfields name = val) ∧
    (k = .u32 → v.as_u32 = none →
        gen_set_fn k name v cfg = (.error .InvalidValue, cfg)) ∧
    (∀ val, k = .boolK → v.as_bool = some val →
        (gen_set_fn k name v cfg).1 = .ok () ∧
        (gen_set_fn k name v cfg).2.bfields name = val) ∧
    (k = .boolK → v.as_bool = none →
        gen_set_fn k name v cfg = (.error .InvalidValue, cfg)) := by
  cases k <;> cases v <;>
    simp [gen_set_fn, RsConfig.bump_generation, ParamValue.as_u8,
      ParamValue.as_u16, ParamValue.as_u32, ParamValue.as_bool]

/-- C10 witness: a u8 `set_fn` stores 200 — far outside a typical declared
u8 range such as [0, 50] — and a mismatching variant is rejected leaving the
configuration untouched. -/
theorem c10_witness :
    (gen_set_fn .u8 "wpm" (.u8 200) cfg0).1 = .ok () ∧
    (gen_set_fn .u8 "wpm" (.u8 200) cfg0).2.nfields "wpm" = 200 ∧
    gen_set_fn .u8 "wpm" (.bool true) cfg0 = (.error .InvalidValue, cfg0) := by
  have h1 := (c10_theorem .u8 "wpm" (.u8 200) cfg0).2.2.1 200 rfl rfl
  have h2 := (c10_theorem .u8 "wpm" (.bool true) cfg0).2.2.2.1 rfl rfl
  exact ⟨h1.1, h1.2, h2⟩

/-! ## Helper lemmas on the generated setter and string-set path -/

theorem set_events_gen (d : ParamDescriptor) (v : SetVal) (st : CState) :
    (runEvents st (set_fn_events d v)).generation = (st.generation + 1) % 65536 := by
  obtain ⟨nm, fa, fp, ty, mn, mx⟩ := d
  cases ty <;>
    simp [set_fn_events, runEvents, applyEvent, setIntField, setStrField]

theorem set_events_ints (d : ParamDescriptor) (v : SetVal) (st : CState)
    (h : d.type ≠ .stringP) :
    (runEvents st (set_fn_events d v)).ints d.full_path = v.asNum := by
  obtain ⟨nm, fa, fp, ty, mn, mx⟩ := d
  cases ty <;>
    first
      | exact absurd rfl h
      | simp [set_fn_events, runEvents, applyEvent, setIntField]

/-- The integer branches of the generated `config_set_param_str`, as one
range-check equation: `strtoul` the value, compare against the descriptor
bounds, and on success invoke the setter with the narrowed value. -/
theorem set_param_str_int_eq (table : List ParamDescriptor) (st : CState)
    (name value : String) (d : ParamDescriptor)
    (hfind : config_find_param table name = some d)
    (hint : d.type = .u8 ∨ d.type = .u16 ∨ d.type = .u32 ∨ d.type = .enumP) :
    config_set_param_str table st name value =
      if strtoul value < d.min ∨ d.max < strtoul value then (-2, st)
      else (0, runEvents st
        (set_fn_events d (.num (strtoul value % typeWidth d.type)))) := by
  obtain ⟨nm, fa, fp, ty, mn, mx⟩ := d
  by_cases h : strtoul value < mn ∨ mx < strtoul value
  · have hb : (decide (strtoul value < mn) || decide (mx < strtoul value)) = true := by
      rcases h with h | h <;> simp [h]
    rcases hint with ht | ht | ht | ht <;>
      (replace ht : ty = _ := ht; subst ht;
       simp [config_set_param_str, hfind, hb, if_pos h])
  · have hb : (decide (strtoul value < mn) || decide (mx < strtoul value)) = false := by
      push_neg at h
      simp [Nat.not_lt.mpr h.1, Nat.not_lt.mpr h.2]
    rcases hint with ht | ht | ht | ht <;>
      (replace ht : ty = _ := ht; subst ht;
       simp [config_set_param_str, hfind, hb, if_neg h, typeWidth])

/-! ## C3 — out-of-range string set rejected, boundary accepted -/

/-- C3 counterexample: the generator happily emits a u8 descriptor whose
declared range [0, 300] exceeds the u8 storage width; setting the boundary
value 300 succeeds (`strtoul` yields 300, the range check passes) but the
setter stores `(uint8_t)300 = 44`, not the boundary value itself. -/
theorem c3_counterexample :
    (config_set_param_str [dWide] st7 "f.p" "300").1 = 0 ∧
    (config_set_param_str [dWide] st7 "f.p" "300").2.ints "f.p" = 44 ∧
    dWide.min ≤ 300 ∧ 300 ≤ dWide.max ∧ dWide.max = 300 ∧ (44 : Nat) ≠ 300 := by
  refine ⟨by decide, by decide, by decide, by decide, by decide, by decide⟩

/-- C3 (amended): for an integer parameter with declared range [min, max], a
string converting outside the range returns OutOfRange (-2) with the store —
field values and generation counter — untouched (the setter is never
invoked); a string converting inside the range (in particular to the
boundary min or max) succeeds, bumps the generation, and stores the value
reduced modulo the storage width — the exact value whenever the declared
range lies within the parameter's storage type. -/
theorem c3_theorem (table : List ParamDescriptor) (st : CState)
    (name value : String) (d : ParamDescriptor)
    (hfind : config_find_param table name = some d)
    (hint : d.type = .u8 ∨ d.type = .u16 ∨ d.type = .u32)
    (hrange : d.min ≤ d.max) :
    (strtoul value < d.min ∨ d.max < strtoul value →
      config_set_param_str table st name value = (-2, st)) ∧
    (d.min ≤ strtoul value → strtoul value ≤ d.max →
      (config_set_param_str table st name value).1 = 0 ∧
      (config_set_param_str table st name value).2.ints d.full_path =
        strtoul value % typeWidth d.type ∧
      (config_set_param_str table st name value).2.generation =
        (st.generation + 1) % 65536) ∧
    (strtoul value = d.min ∨ strtoul value = d.max → d.max < typeWidth d.type →
      (config_set_param_str table st name value).1 = 0 ∧
      (config_set_param_str table st name value).2.ints d.full_path =
        strtoul value) := by
  have hint4 : d.type = .u8 ∨ d.type = .u16 ∨ d.type = .u32 ∨ d.type = .enumP := by
    rcases hint with h | h | h
    · exact Or.inl h
    · exact Or.inr (Or.inl h)
    · exact Or.inr (Or.inr (Or.inl h))
  have heq := set_param_str_int_eq table st name value d hfind hint4
  have hns : d.type ≠ .stringP := by
    rcases hint with h | h | h <;> simp [h]
  have inRange : ∀ h1 : d.min ≤ strtoul value, ∀ h2 : strtoul value ≤ d.max,
      (config_set_param_str table st name value).1 = 0 ∧
      (config_set_param_str table st name value).2.ints d.full_path =
        strtoul value % typeWidth d.type ∧
      (config_set_param_str table st name value).2.generation =
        (st.generation + 1) % 65536 := by
    intro h1 h2
    have hcond : ¬(strtoul value < d.min ∨ d.max < strtoul value) := by omega
    rw [heq, if_neg hcond]
    exact ⟨rfl, set_events_ints d _ st hns, set_events_gen d _ st⟩
  refine ⟨?_, inRange, ?_⟩
  · intro h
    rw [heq, if_pos h]
  · intro hb hw
    have h1 : d.min ≤ strtoul value := by rcases hb with h | h <;> omega
    have h2 : strtoul value ≤ d.max := by rcases hb with h | h <;> omega
    obtain ⟨hz, hi, _⟩ := inRange h1 h2
    refine ⟨hz, ?_⟩
    rw [hi, Nat.mod_eq_of_lt (by omega)]

/-- C3 witness: on a u8 parameter with range [10, 20], setting "99" is
rejected untouched, and setting the boundary "20" stores exactly 20. -/
theorem c3_witness :
    config_set_param_str [dMid] st7 "f.r" "99" = (-2, st7) ∧
    (config_set_param_str [dMid] st7 "f.r" "20").1 = 0 ∧
    (config_set_param_str [dMid] st7 "f.r" "20").2.ints "f.r" = 20 := by
  have hr := (c3_theorem [dMid] st7 "f.r" "99" dMid (by decide)
    (Or.inl rfl) (by decide)).1 (by right; decide)
  have hb := (c3_theorem [dMid] st7 "f.r" "20" dMid (by decide)
    (Or.inl rfl) (by decide)).2.2 (by right; decide) (by decide)
  exact ⟨hr, hb.1, hb.2⟩

/-! ## C4 — no parse-failure detection on the integer path -/

/-- C4 counterexample: `strtoul(value, NULL, 0)` converts the digit-free
string "abc" to 0; on a u8 parameter with range [0, 10] the generated
string-set path reports success (0, not a parse failure distinct from
OutOfRange) and silently stores 0 over the previous value 7. -/
theorem c4_counterexample :
    strtoul "abc" = 0 ∧
    (∀ c ∈ "abc".toList, ¬ c.isDigit) ∧
    st7.ints "f.q" = 7 ∧
    (config_set_param_str [dTen] st7 "f.q" "abc").1 = 0 ∧
    (config_set_param_str [dTen] st7 "f.q" "abc").2.ints "f.q" = 0 := by
  refine ⟨by decide, by decide, rfl, by decide, by decide⟩

/-- C4 (amended): the generated integer string-set path performs no parse
validation at all — every input string is converted with
`strtoul(value, NULL, 0)` and only range-checked: the outcome is either
OutOfRange (-2, exactly when the converted value lies outside [min, max])
or success storing the converted value; no third, parse-failure outcome
exists, so a non-numeric string converting to an in-range value (0) is
silently stored. -/
theorem c4_theorem (table : List ParamDescriptor) (st : CState)
    (name value : String) (d : ParamDescriptor)
    (hfind : config_find_param table name = some d)
    (hint : d.type = .u8 ∨ d.type = .u16 ∨ d.type = .u32 ∨ d.type = .enumP) :
    ((config_set_param_str table st name value).1 = -2 ∨
      ((config_set_param_str table st name value).1 = 0 ∧
       (config_set_param_str table st name value).2 =
         runEvents st (set_fn_events d (.num (strtoul value % typeWidth d.type))))) ∧
    ((config_set_param_str table st name value).1 = -2 ↔
      (strtoul value < d.min ∨ d.max < strtoul value)) := by
  have heq := set_param_str_int_eq table st name value d hfind hint
  by_cases h : strtoul value < d.min ∨ d.max < strtoul value
  · rw [heq, if_pos h]
    exact ⟨Or.inl rfl, by simpa using h⟩
  · rw [heq, if_neg h]
    refine ⟨Or.inr ⟨rfl, rfl⟩, ?_⟩
    constructor
    · intro hz; simp at hz
    · intro hc; exact absurd hc h

/-- C4 witness: the amended characterization at the concrete counterexample
input — outcome success, never a distinct parse-failure code. -/
theorem c4_witness :
    (config_set_param_str [dTen] st7 "f.q" "abc").1 = -2 ∨
    ((config_set_param_str [dTen] st7 "f.q" "abc").1 = 0 ∧
     (config_set_param_str [dTen] st7 "f.q" "abc").2 =
       runEvents st7 (set_fn_events dTen (.num (strtoul "abc" % typeWidth dTen.type)))) :=
  (c4_theorem [dTen] st7 "f.q" "abc" dTen (by decide) (Or.inl rfl)).1

/-! ## Helper lemmas on the generated bulk load -/

theorem load_one_miss (nv : NvsStore) (p : LoadParam) (acc : Nat × CState)
    (h : load_hits nv p = false) : load_one nv acc p = acc := by
  obtain ⟨fp, key, ty, ml⟩ := p
  cases ty <;>
    (simp only [load_hits] at h; simp only [load_one]; split <;> simp_all)

theorem load_one_hit_fst (nv : NvsStore) (p : LoadParam) (acc : Nat × CState)
    (h : load_hits nv p = true) : (load_one nv acc p).1 = acc.1 + 1 := by
  obtain ⟨fp, key, ty, ml⟩ := p
  cases ty <;>
    (simp only [load_hits] at h; simp only [load_one]; split <;> simp_all)

theorem load_one_preserve (nv : NvsStore) (p : LoadParam) (acc : Nat × CState)
    (x : String) (h : p.full_path = x → load_hits nv p = false) :
    (load_one nv acc p).2.ints x = acc.2.ints x ∧
    (load_one nv acc p).2.strs x = acc.2.strs x := by
  by_cases hx : p.full_path = x
  · rw [load_one_miss nv p acc (h hx)]
    exact ⟨rfl, rfl⟩
  · have hx' : ¬ x = p.full_path := fun hh => hx hh.symm
    obtain ⟨fp, key, ty, ml⟩ := p
    refine ⟨?_, ?_⟩ <;>
      (cases ty <;> simp only [load_one] <;> split <;>
        simp_all [setIntField, setStrField])

theorem load_fold_fst (nv : NvsStore) :
    ∀ (ps : List LoadParam) (acc : Nat × CState),
      (ps.foldl (load_one nv) acc).1 = acc.1 + (ps.filter (load_hits nv)).length := by
  intro ps
  induction ps with
  | nil => intro acc; simp
  | cons p tl ih =>
    intro acc
    simp only [List.foldl_cons, List.filter_cons]
    by_cases h : load_hits nv p = true
    · rw [ih (load_one nv acc p), load_one_hit_fst nv p acc h]
      simp only [h, if_true, List.length_cons]
      omega
    · have hf : load_hits nv p = false := by simpa using h
      rw [ih (load_one nv acc p), load_one_miss nv p acc hf]
      simp [hf]

theorem load_fold_preserve (nv : NvsStore) (x : String) :
    ∀ (ps : List LoadParam) (acc : Nat × CState),
      (∀ p ∈ ps, p.full_path = x → load_hits nv p = false) →
      (ps.foldl (load_one nv) acc).2.ints x = acc.2.ints x ∧
      (ps.foldl (load_one nv) acc).2.strs x = acc.2.strs x := by
  intro ps
  induction ps with
  | nil => intro acc _; exact ⟨rfl, rfl⟩
  | cons p tl ih =>
    intro acc hall
    simp only [List.foldl_cons]
    obtain ⟨hi, hs⟩ :=
      ih (load_one nv acc p) (fun q hq => hall q (List.mem_cons_of_mem _ hq))
    obtain ⟨hpi, hps⟩ :=
      load_one_preserve nv p acc x (hall p (List.mem_cons_self _ _))
    exact ⟨hi.trans hpi, hs.trans hps⟩

/-! ## C7 — bulk load contract -/

/-- C7: the generated `config_load_from_nvs` returns success count 0 and
touches nothing when the namespace does not exist (every field stays at its
compile-time default); any other open failure aborts the whole bulk
operation with -1, which is negative and hence distinct from every possible
success count; on a successful open the returned count is exactly the
number of parameters whose key is found, and a parameter whose key is
missing is no error — its in-memory value is left untouched while loading
continues over the remaining parameters. -/
theorem c7_theorem (ps : List LoadParam) (nv : NvsStore) (st : CState) :
    (nv.openRes = .notFound → config_load_from_nvs ps nv st = (0, st)) ∧
    (nv.openRes = .otherErr →
      config_load_from_nvs ps nv st = (-1, st) ∧
      (config_load_from_nvs ps nv st).1 < 0 ∧
      (∀ (ps2 : List LoadParam) (nv2 : NvsStore) (st2 : CState),
        nv2.openRes ≠ .otherErr → 0 ≤ (config_load_from_nvs ps2 nv2 st2).1)) ∧
    (nv.openRes = .ok →
      (config_load_from_nvs ps nv st).1 =
        ((ps.filter (load_hits nv)).length : Int) ∧
      (∀ x : String,
        (∀ p ∈ ps, p.full_path = x → load_hits nv p = false) →
        (config_load_from_nvs ps nv st).2.ints x = st.ints x ∧
        (config_load_from_nvs ps nv st).2.strs x = st.strs x)) := by
  refine ⟨?_, ?_, ?_⟩
  · intro h
    simp [config_load_from_nvs, h]
  · intro h
    refine ⟨by simp [config_load_from_nvs, h], by simp [config_load_from_nvs, h], ?_⟩
    intro ps2 nv2 st2 h2
    rcases ho : nv2.openRes with _ | _ | _
    · simp only [config_load_from_nvs, ho]
      exact Int.natCast_nonneg _
    · simp [config_load_from_nvs, ho]
    · exact absurd ho h2
  · intro h
    constructor
    · simp only [config_load_from_nvs, h]
      rw [load_fold_fst nv ps (0, st)]
      simp
    · intro x hx
      simp only [config_load_from_nvs, h]
      exact load_fold_preserve nv x ps (0, st) hx

/-- C7 witness: with only the pitch key present, the load over the two-entry
table returns success count 1 and leaves the absent `keyer.wpm` field at its
prior value. -/
theorem c7_witness :
    (config_load_from_nvs loadTable nvsOnlyPitch st7).1 = 1 ∧
    (config_load_from_nvs loadTable nvsOnlyPitch st7).2.ints "keyer.wpm" = 7 := by
  have h := (c7_theorem loadTable nvsOnlyPitch st7).2.2 rfl
  refine ⟨?_, (h.2 "keyer.wpm" (by decide)).1⟩
  rw [h.1]
  decide

/-! ## Helper lemmas for the collision claim -/

theorem two_le_length_of_mem {α : Type} {l : List α} {a b : α}
    (ha : a ∈ l) (hb : b ∈ l) (hne : a ≠ b) : 2 ≤ l.length := by
  cases l with
  | nil => cases ha
  | cons x xs =>
    cases xs with
    | nil =>
      simp only [List.mem_singleton] at ha hb
      exact absurd (ha.trans hb.symm) hne
    | cons y ys =>
      simp only [List.length_cons]
      omega

theorem string_append_right_cancel {a b c : String} (h : a ++ c = b ++ c) :
    a = b := by
  have hd : a.data ++ c.data = b.data ++ c.data := by
    have h2 := congrArg String.data h
    simpa [String.data_append] using h2
  exact String.ext (List.append_cancel_right hd)

theorem externalIdent_prefixed (params : List PParam) (fams : List FamilyMeta)
    (p : PParam) (f : String) (hf : fams ≠ []) (hfam : p.family = some f)
    (hne : f ≠ "") (hc : 2 ≤ name_counts params (upperA p.name)) :
    externalIdent fams params p = upperA f ++ "_" ++ upperA p.name := by
  have h1 : fams.isEmpty = false := by
    cases fams with
    | nil => exact absurd rfl hf
    | cons _ _ => rfl
  have h2 : familyTruthy p = true := by
    simp [familyTruthy, hfam, hne]
  have h3 : decide (1 < name_counts params (upperA p.name)) = true := by
    simp only [decide_eq_true_eq]
    omega
  simp [externalIdent, h1, h2, h3, hfam]

theorem externalIdent_bare (params : List PParam) (fams : List FamilyMeta)
    (p : PParam) (hc : name_counts params (upperA p.name) ≤ 1) :
    externalIdent fams params p = upperA p.name := by
  have h3 : decide (1 < name_counts params (upperA p.name)) = false := by
    simp only [decide_eq_false_iff_not]
    omega
  simp [externalIdent, h3]

/-! ## C6 — collision-driven external identifier prefixing -/

/-- C6 counterexample: two parameters sharing the short name `wpm` inside the
single family `keyer` (one direct, one in subfamily `tone`).  The short name
occurs in only one family, so the claim demands the bare identifier `WPM`;
the generator counts raw occurrences schema-wide and prefixes anyway — and
both parameters collapse to the *same* identifier `KEYER_WPM`. -/
theorem c6_counterexample :
    externalIdent fams6 params6 p6a = "KEYER_WPM" ∧
    externalIdent fams6 params6 p6b = "KEYER_WPM" ∧
    familiesWithName params6 "wpm" = ["keyer"] ∧
    externalIdent fams6 params6 p6a ≠ "WPM" := by
  refine ⟨by decide, by decide, by decide, by decide⟩

/-- C6 (amended): the external accessor identifier of a parameter with a
(nonempty) family, in a schema with at least one family, is family-prefixed
if and only if its upper-cased short name occurs two or more times among all
parameters schema-wide — whether those occurrences span several families or
sit inside one family's subfamilies; otherwise the bare upper-cased name is
used.  Two same-named parameters in two families whose names differ even
after upper-casing therefore always receive distinct identifiers.  The
`name_counts` table is computed once over the whole parameter list before
any accessor is emitted. -/
theorem c6_theorem (params : List PParam) (fams : List FamilyMeta)
    (hf : fams ≠ []) (p : PParam) (f : String)
    (hfam : p.family = some f) (hne : f ≠ "") :
    (2 ≤ name_counts params (upperA p.name) →
      externalIdent fams params p = upperA f ++ "_" ++ upperA p.name) ∧
    (name_counts params (upperA p.name) ≤ 1 →
      externalIdent fams params p = upperA p.name) ∧
    (externalIdent fams params p = upperA f ++ "_" ++ upperA p.name ↔
      2 ≤ name_counts params (upperA p.name)) ∧
    (∀ q g, q ∈ params → p ∈ params → q.family = some g → g ≠ "" →
      upperA q.name = upperA p.name → upperA g ≠ upperA f →
      externalIdent fams params q ≠ externalIdent fams params p) := by
  refine ⟨fun hc => externalIdent_prefixed params fams p f hf hfam hne hc,
    fun hc => externalIdent_bare params fams p hc, ⟨?_, ?_⟩, ?_⟩
  · intro he
    by_contra hlt
    push_neg at hlt
    have hb := externalIdent_bare params fams p (by omega)
    rw [hb] at he
    have hlen := congrArg String.length he
    simp only [String.length_append] at hlen
    have hu : ("_" : String).length = 1 := rfl
    omega
  · exact fun hc => externalIdent_prefixed params fams p f hf hfam hne hc
  · intro q g hq hp hqf hgne hname hgf
    have hqne : q ≠ p := by
      intro hqp
      rw [hqp, hfam] at hqf
      injection hqf with hh
      exact hgf (by rw [hh])
    have hqmem : q ∈ params.filter fun r => upperA r.name == upperA p.name := by
      rw [List.mem_filter]
      exact ⟨hq, by simp [hname]⟩
    have hpmem : p ∈ params.filter fun r => upperA r.name == upperA p.name := by
      rw [List.mem_filter]
      exact ⟨hp, by simp⟩
    have hc : 2 ≤ name_counts params (upperA p.name) :=
      two_le_length_of_mem hqmem hpmem hqne
    have hcq : 2 ≤ name_counts params (upperA q.name) := by
      rw [hname]; exact hc
    rw [externalIdent_prefixed params fams q g hf hqf hgne hcq,
      externalIdent_prefixed params fams p f hf hfam hne hc, hname]
    intro he
    exact hgf (string_append_right_cancel (string_append_right_cancel he))

/-- C6 witness: `brightness` in the two families `leds` and `keyer` yields
two distinct family-prefixed identifiers. -/
theorem c6_witness :
    externalIdent fams6b params6b p6c = "LEDS_BRIGHTNESS" ∧
    externalIdent fams6b params6b p6d = "KEYER_BRIGHTNESS" ∧
    externalIdent fams6b params6b p6c ≠ externalIdent fams6b params6b p6d := by
  have h1 := (c6_theorem params6b fams6b (by decide) p6c "leds" rfl
    (by decide)).1 (by decide)
  have h2 := (c6_theorem params6b fams6b (by decide) p6d "keyer" rfl
    (by decide)).1 (by decide)
  have h3 := (c6_theorem params6b fams6b (by decide) p6d "keyer" rfl
    (by decide)).2.2.2 p6c "leds" (by decide) (by decide) rfl (by decide)
    (by decide) (by decide)
  refine ⟨by rw [h1]; decide, by rw [h2]; decide, h3⟩

/-! ## C9 — preset container index safety -/

/-- C9: in the generated preset container (nonempty, as generated from any
schema with `count ≥ 1`), `active()` clamps the stored index with
`idx.min(count - 1)` to a position strictly below the preset count, hence
always returns a preset of the array — in particular an index at or beyond
the count resolves to the last preset — and `activate(index)` with
`index ≥ count` is a no-op leaving `active_index` (and everything else)
unchanged, so reads through `active_index` never index out of bounds. -/
theorem c9_theorem (c : IambicPresets) (h : 1 ≤ c.presets.length) :
    min c.active_index (c.presets.length - 1) < c.presets.length ∧
    c.active.isSome = true ∧
    (∀ p, c.active = some p → p ∈ c.presets) ∧
    (c.presets.length ≤ c.active_index →
      c.active = c.presets[c.presets.length - 1]?) ∧
    (∀ i, c.presets.length ≤ i → c.activate i = c) := by
  have hlt : min c.active_index (c.presets.length - 1) < c.presets.length := by
    have h2 : c.presets.length - 1 < c.presets.length := by omega
    exact lt_of_le_of_lt (min_le_right _ _) h2
  refine ⟨hlt, ?_, ?_, ?_, ?_⟩
  · rw [IambicPresets.active, List.getElem?_eq_getElem hlt]
    rfl
  · intro p hp
    rw [IambicPresets.active, List.getElem?_eq_getElem hlt] at hp
    injection hp with hp'
    rw [← hp']
    exact List.getElem_mem _
  · intro hge
    rw [IambicPresets.active, Nat.min_eq_right (by omega)]
  · intro i hi
    rw [IambicPresets.activate, if_neg (by omega)]

/-- C9 witness: with ten presets and a stored index of 999, `active()` still
returns a preset and `activate(12)` leaves the container unchanged. -/
theorem c9_witness :
    presets10.active.isSome = true ∧ presets10.activate 12 = presets10 := by
  have h := c9_theorem presets10 (by decide)
  exact ⟨h.2.1, h.2.2.2.2 12 (by decide)⟩

/-! ## Helper lemmas for the pipeline claim -/

theorem checkList_ok (f : PParam → Except PyErr Unit) :
    ∀ {ps : List PParam}, (∀ p ∈ ps, f p = .ok ()) → checkList f ps = .ok () := by
  intro ps
  induction ps with
  | nil => intro _; rfl
  | cons p tl ih =>
    intro h
    simp only [checkList, h p (List.mem_cons_self _ _)]
    exact ih fun q hq => h q (List.mem_cons_of_mem _ hq)

theorem grouped_subset (params : List PParam) (fams : List FamilyMeta) :
    ∀ p ∈ groupedParams params fams, p ∈ params := by
  intro p hp
  simp only [groupedParams, List.mem_flatMap] at hp
  obtain ⟨f, _, hpf⟩ := hp
  exact List.mem_of_mem_filter hpf

theorem parse_raws_mem (s : SchemaV2) :
    ∀ p ∈ (parse_v2_schema s).1, ∃ fp ∈ s.families, p.toPRaw ∈ familyRaws fp.2 := by
  intro p hp
  simp only [parse_v2_schema, List.mem_flatMap] at hp
  obtain ⟨fp, hfp, hpf⟩ := hp
  refine ⟨fp, hfp, ?_⟩
  simp only [familyParams, List.mem_append] at hpf
  rcases hpf with hdir | hsub
  · simp only [directParams, List.mem_map] at hdir
    obtain ⟨pr, hpr, hpe⟩ := hdir
    rw [← hpe]
    simp only [familyRaws, List.mem_append]
    exact Or.inl (List.mem_map.mpr ⟨pr, hpr, rfl⟩)
  · simp only [List.mem_flatMap] at hsub
    obtain ⟨sp, hsp, hpe⟩ := hsub
    have hsp2 : sp ∈ fp.2.subfamilies := List.mem_of_mem_filter hsp
    simp only [subParams, List.mem_map] at hpe
    obtain ⟨pr, hpr, hpe2⟩ := hpe
    rw [← hpe2]
    simp only [familyRaws, List.mem_append, List.mem_flatMap]
    exact Or.inr ⟨sp, hsp2, List.mem_map.mpr ⟨pr, hpr, rfl⟩⟩

theorem checks_ok_of_wf (p : PParam) (h : wellFormedRaw p.toPRaw = true) :
    configH_check p = .ok () ∧ configC_check p = .ok () ∧
    nvsH_check p = .ok () ∧ typeOnly_check p = .ok () := by
  simp only [wellFormedRaw, Bool.and_eq_true] at h
  obtain ⟨⟨hg, hk⟩, ht⟩ := h
  rcases hgui : p.toPRaw.gui? with _ | g
  · rw [hgui] at hg; exact absurd hg (by simp)
  rw [hgui] at hg
  replace hg : g.label_long_en?.isSome = true := hg
  rcases hlab : g.label_long_en? with _ | lab
  · rw [hlab] at hg; simp at hg
  rcases hkey : p.toPRaw.nvs_key? with _ | key
  · rw [hkey] at hk; simp at hk
  rcases htyp : p.toPRaw.type? with _ | t
  · rw [htyp] at ht; exact absurd ht (by simp)
  rw [htyp] at ht
  replace ht :
      (if t = "string" then true
       else if t = "enum" then
         (match p.toPRaw.enum_values?, p.toPRaw.default? with
          | some evs, some (.pstr d) => (evs.findIdx? (· = d)).isSome
          | _, _ => false)
       else p.toPRaw.default?.isSome) = true := ht
  have hcom : ∃ c, get_field_comment p = .ok c := by
    simp only [get_field_comment, hgui, hlab]
    rcases p.range? with _ | r
    · exact ⟨_, rfl⟩
    · exact ⟨_, rfl⟩
  obtain ⟨c, hc⟩ := hcom
  have hato : ∃ a, get_c_atomic_type p = .ok a := by
    by_cases hs : is_string_type p
    · exact ⟨"char[" ++ toString (get_string_max_length p + 1) ++ "]",
        by simp [get_c_atomic_type, hs]⟩
    · exact ⟨c_atomic_type_map t, by simp [get_c_atomic_type, hs, htyp]⟩
  obtain ⟨a, ha⟩ := hato
  have hH : configH_check p = .ok () := by
    simp only [configH_check, hc]
    by_cases hs : is_string_type p
    · simp [hs]
    · simp [hs, ha]
  have hdv : ∃ r, get_default_value p = .ok r := by
    simp only [get_default_value, htyp]
    by_cases hb : t = "bool"
    · have hnstr : ¬ t = "string" := by subst hb; decide
      have hnen : ¬ t = "enum" := by subst hb; decide
      rw [if_neg hnstr, if_neg hnen] at ht
      rcases hdef : p.toPRaw.default? with _ | d
      · rw [hdef] at ht; simp at ht
      exact ⟨(lowerA (pyStr d), none), by simp [hb, hdef]⟩
    · by_cases he : t = "enum"
      · have hnstr : ¬ t = "string" := by subst he; decide
        rw [if_neg hnstr, if_pos he] at ht
        rcases hev : p.toPRaw.enum_values? with _ | evs
        · rw [hev] at ht; simp at ht
        rcases hdef : p.toPRaw.default? with _ | d
        · rw [hev, hdef] at ht; simp at ht
        rw [hev, hdef] at ht
        rcases d with b | nn | sd
        · simp at ht
        · simp at ht
        · replace ht : (evs.findIdx? (· = sd)).isSome = true := ht
          rcases hidx : evs.findIdx? (· = sd) with _ | i
          · rw [hidx] at ht; simp at ht
          exact ⟨(toString i, some (pyStr (.pstr sd))),
            by simp [hb, he, hev, hdef, listIndex, hidx]⟩
      · by_cases hstr : t = "string"
        · exact ⟨("\"" ++ pyStr (p.toPRaw.default?.getD (.pstr "")) ++ "\"", none),
            by simp [hb, he, hstr]⟩
        · rw [if_neg hstr, if_neg he] at ht
          rcases hdef : p.toPRaw.default? with _ | d
          · rw [hdef] at ht; simp at ht
          exact ⟨(pyStr d, none), by simp [hb, he, hstr, hdef]⟩
  obtain ⟨r0, hr0⟩ := hdv
  exact ⟨hH, by simp [configC_check, hr0], by simp [nvsH_check, hkey],
    by simp [typeOnly_check, htyp]⟩

/-! ## C2 — schema validation and abort-before-write -/

/-- C2 counterexample: a schema in which two parameters resolve to the same
full path `a.b.c` (family `a` / subfamily `b` / parameter `c`, and family
`a.b` / parameter `c`) and whose parameter default 99 lies outside its
declared range [1, 5] — generation nevertheless succeeds, emits every
artifact, and raises nothing at all, let alone a SchemaError. -/
theorem c2_counterexample :
    ((parse_v2_schema schemaDupPath).1.map fun p => p.full_path) =
      ["a.b.c", "a.b.c"] ∧
    (∃ p, p ∈ (parse_v2_schema schemaDupPath).1 ∧
      p.range? = some (1, 5) ∧ p.default? = some (.pnat 99) ∧ (5 : Nat) < 99) ∧
    mainGenerate schemaDupPath = { written := allArtifacts, err := none } := by
  refine ⟨by decide, ?_, by decide⟩
  exact ⟨pDup, by decide, by decide, by decide, by decide⟩

/-- C2 (amended): the generator performs no schema validation and has no
SchemaError.  A v2 schema whose parameters are merely field-complete (gui
label chain, `nvs_key`, `type` present; a default present for non-string
types; an enum default that is a member of its `enum_values`) generates all
eight artifacts successfully — duplicate full paths and defaults outside
their declared range included.  A parameter missing `type` aborts generation
with an unhandled Python KeyError before any artifact is written; an enum
default absent from `enum_values` raises an unhandled ValueError only after
config.h has already been written, leaving partial output on disk. -/
theorem c2_theorem :
    (∀ s : SchemaV2,
      (∀ fp ∈ s.families, ∀ r ∈ familyRaws fp.2, wellFormedRaw r = true) →
      mainGenerate s = { written := allArtifacts, err := none }) ∧
    mainGenerate schemaNoType = { written := [], err := some (.keyErr "type") } ∧
    mainGenerate schemaBadEnum =
      { written := ["config.h"], err := some .valErr } := by
  refine ⟨?_, by decide, by decide⟩
  intro s hwf
  have hall : ∀ p ∈ (parse_v2_schema s).1, wellFormedRaw p.toPRaw = true := by
    intro p hp
    obtain ⟨fp, hfp, hraw⟩ := parse_raws_mem s p hp
    exact hwf fp hfp p.toPRaw hraw
  have h1 : checkList configH_check
      (groupedParams (parse_v2_schema s).1 (parse_v2_schema s).2) = .ok () :=
    checkList_ok _ fun p hp =>
      (checks_ok_of_wf p (hall p (grouped_subset _ _ p hp))).1
  have h2 : checkList configC_check (parse_v2_schema s).1 = .ok () :=
    checkList_ok _ fun p hp => (checks_ok_of_wf p (hall p hp)).2.1
  have h3 : checkList nvsH_check (parse_v2_schema s).1 = .ok () :=
    checkList_ok _ fun p hp => (checks_ok_of_wf p (hall p hp)).2.2.1
  have h4 : checkList typeOnly_check (parse_v2_schema s).1 = .ok () :=
    checkList_ok _ fun p hp => (checks_ok_of_wf p (hall p hp)).2.2.2
  simp only [mainGenerate, h1, h2, h3, h4, runPhases, allArtifacts]
  rfl

/-- C2 witness: the no-validation success clause applied to the concrete
duplicate-path, out-of-range-default schema. -/
theorem c2_witness :
    mainGenerate schemaDupPath = { written := allArtifacts, err := none } :=
  c2_theorem.1 schemaDupPath (by decide)

/-! ## C1 — wildcard pattern evaluation -/

/-- C1 counterexample: the generated matcher copies the pattern prefix into a
64-byte stack buffer, truncating it to 63 characters.  For the shallow
pattern whose prefix is 64 `a`s, the spec-side prefix (the full text before
the wildcard, separator stripped) does not match the descriptor whose path
is 63 `a`s followed by `b` — yet the generated matcher, working with the
truncated 63-character prefix, visits it. -/
theorem c1_counterexample :
    firstStarIdx longPat.toList = some 65 ∧
    config_foreach_matching [dLong] longPat = [dLong] ∧
    claimPrefixBeforeStar longPat.toList 65 = List.replicate 64 'a' ∧
    claimDirectChild (claimPrefixBeforeStar longPat.toList 65)
      dLong.full_path.toList = false := by
  refine ⟨by decide, by decide, by decide, by decide⟩

/-- C1 (amended): for every pattern whose text before the first wildcard is
shorter than the generated 64-byte prefix buffer (and every pattern without
a wildcard), the generated `config_foreach_matching` behaves as the claim
states: no wildcard visits at most one descriptor — the exact full-path or
bare-name match; a shallow `*` with non-empty prefix visits exactly the
descriptors whose full path starts with the prefix with no further `.` after
the prefix boundary; `**` visits exactly the descriptors whose full path
starts with the prefix; an empty prefix visits every descriptor.  Patterns
with a 64-byte-or-longer prefix are evaluated against the truncated prefix
instead.  The spec's concrete table behaves exactly as listed. -/
theorem c1_theorem (table : List ParamDescriptor) (pattern : String)
    (hshort : (firstStarIdx pattern.toList).getD 0 < 64) :
    (firstStarIdx pattern.toList = none →
      (config_foreach_matching table pattern).length ≤ 1 ∧
      ∀ p ∈ config_foreach_matching table pattern,
        p ∈ table ∧ (p.full_path = pattern ∨ p.name = pattern)) ∧
    (∀ i, firstStarIdx pattern.toList = some i →
      ((claimPrefixBeforeStar pattern.toList i = [] →
        config_foreach_matching table pattern = table) ∧
       (claimPrefixBeforeStar pattern.toList i ≠ [] →
        isRecurAt pattern.toList i = true →
        config_foreach_matching table pattern =
          table.filter fun p =>
            claimDescendant (claimPrefixBeforeStar pattern.toList i)
              p.full_path.toList) ∧
       (claimPrefixBeforeStar pattern.toList i ≠ [] →
        isRecurAt pattern.toList i = false →
        config_foreach_matching table pattern =
          table.filter fun p =>
            claimDirectChild (claimPrefixBeforeStar pattern.toList i)
              p.full_path.toList))) ∧
    (config_foreach_matching demoTable "keyer.*" = [dWpm] ∧
     config_foreach_matching demoTable "keyer.**" = [dWpm, dPitch] ∧
     config_foreach_matching demoTable "*" = demoTable ∧
     config_foreach_matching demoTable "leds.brightness" = [dBright]) := by
  refine ⟨?_, ?_, by decide, by decide, by decide, by decide⟩
  · intro hnone
    have hf : config_foreach_matching table pattern =
        (match config_find_param table pattern with
         | some p => [p]
         | none => []) := by
      simp only [config_foreach_matching, hnone]
    rcases hfp : config_find_param table pattern with _ | p
    · rw [hf, hfp]
      exact ⟨by simp, by simp⟩
    · rw [hf, hfp]
      refine ⟨by simp, ?_⟩
      intro q hq
      simp only [List.mem_singleton] at hq
      subst hq
      exact find_param_sound hfp
  · intro i hi
    rw [hi] at hshort
    have hlt : i < 64 := by simpa using hshort
    have hlen0 : (if 64 ≤ i then 63 else i) = i := if_neg (by omega)
    have hf : config_foreach_matching table pattern =
        table.filter fun p =>
          if (claimPrefixBeforeStar pattern.toList i).length = 0 then true
          else if (claimPrefixBeforeStar pattern.toList i).isPrefixOf
              p.full_path.toList then
            if isRecurAt pattern.toList i then true
            else !((afterBoundary (claimPrefixBeforeStar pattern.toList i).length
              p.full_path.toList).contains '.')
          else false := by
      simp only [config_foreach_matching, hi, hlen0, claimPrefixBeforeStar]
    refine ⟨?_, ?_, ?_⟩
    · intro hpre
      have hstep : table.filter (fun p =>
          if (claimPrefixBeforeStar pattern.toList i).length = 0 then true
          else if (claimPrefixBeforeStar pattern.toList i).isPrefixOf
              p.full_path.toList then
            if isRecurAt pattern.toList i then true
            else !((afterBoundary (claimPrefixBeforeStar pattern.toList i).length
              p.full_path.toList).contains '.')
          else false) = table.filter (fun _ => true) :=
        List.filter_congr fun p _ => by rw [hpre]; rfl
      rw [hf, hstep, List.filter_true]
    · intro hpre hrec
      rw [hf]
      apply List.filter_congr
      intro p _
      have hl : ¬ (claimPrefixBeforeStar pattern.toList i).length = 0 :=
        fun h => hpre (List.length_eq_zero.mp h)
      rw [if_neg hl]
      cases hpf : (claimPrefixBeforeStar pattern.toList i).isPrefixOf
          p.full_path.toList
      · rw [if_neg (by simp)]
        unfold claimDescendant
        exact hpf.symm
      · rw [if_pos rfl, if_pos hrec]
        unfold claimDescendant
        exact hpf.symm
    · intro hpre hrec
      rw [hf]
      apply List.filter_congr
      intro p _
      have hl : ¬ (claimPrefixBeforeStar pattern.toList i).length = 0 :=
        fun h => hpre (List.length_eq_zero.mp h)
      rw [if_neg hl]
      cases hpf : (claimPrefixBeforeStar pattern.toList i).isPrefixOf
          p.full_path.toList
      · rw [if_neg (by simp)]
        unfold claimDirectChild
        rw [hpf]
        exact (Bool.false_and _).symm
      · have hnr : ¬ (isRecurAt pattern.toList i = true) := by
          rw [hrec]
          exact Bool.false_ne_true
        rw [if_pos rfl, if_neg hnr]
        unfold claimDirectChild
        rw [hpf]
        exact (Bool.true_and _).symm

/-- C1 witness: the amended characterization applied at the spec's recursive
pattern over the spec's table. -/
theorem c1_witness :
    config_foreach_matching demoTable "keyer.**" = [dWpm, dPitch] :=
  (c1_theorem demoTable "keyer.**" (by decide)).2.2.2.1

end Keyer
